import Mathlib

/-!
Shallow embedding of `src/diesel/src/types/impls/floats/mod.rs`: the binary
codec for 32/64-bit floats and the Postgres NUMERIC wire format.

Bytes are modelled as `Nat` values below 256; byte buffers as `List Nat`.
Machine integers are modelled as `Nat`/`Int` with explicit reduction modulo
`2^16` where the Rust code casts (`digits.len() as u16`) or where a two's
complement 16-bit value crosses the wire.  Floats are modelled by their bit
patterns (`Nat` below `2^32` / `2^64`): `byteorder`'s `read_f32`/`write_f32`
move the IEEE-754 bit pattern unchanged between the value and its 4/8
big-endian bytes, so bit-for-bit claims are claims about these patterns.
-/

/-- Error kinds of the codec, named as in the spec (section 7).  In the
source they are `UnexpectedNullError` (from `not_none!`), the `UnexpectedEof`
I/O error of a short `read_*` call, and `InvalidNumericSign`. -/
inductive CodecError where
  | MissingValue : CodecError
  | Truncated : CodecError
  | InvalidSign (raw : Nat) : CodecError
deriving DecidableEq, Repr

/-- `IsNull` from `types`: whether the encoded value represents SQL NULL. -/
inductive IsNull where
  | No : IsNull
  | Yes : IsNull
deriving DecidableEq, Repr

/-- `byteorder::ReadBytesExt::read_u16::<BigEndian>`: consume two bytes,
big-endian; `None` models the `UnexpectedEof` I/O error. -/
def read_u16 : List Nat → Option (Nat × List Nat)
  | b0 :: b1 :: rest => some (b0 * 256 + b1, rest)
  | _ => none

/-- Reinterpret a 16-bit unsigned value as two's complement `i16`. -/
def i16_of_u16 (v : Nat) : Int :=
  if v < 32768 then (v : Int) else (v : Int) - 65536

/-- `byteorder::ReadBytesExt::read_i16::<BigEndian>`. -/
def read_i16 (l : List Nat) : Option (Int × List Nat) :=
  (read_u16 l).map (fun p => (i16_of_u16 p.1, p.2))

/-- The low 16 bits of an `i16` in two's complement, as written to the wire. -/
def u16_of_i16 (w : Int) : Nat := (w % 65536).toNat

/-- `byteorder::WriteBytesExt::write_u16::<BigEndian>`: the two big-endian
bytes of the low 16 bits of `v` (a `u16` argument always has `v < 65536`;
the `digits.len() as u16` cast is the reduction `v % 65536` these two bytes
carry). -/
def write_u16 (v : Nat) : List Nat := [v / 256 % 256, v % 256]

/-- `byteorder::WriteBytesExt::write_i16::<BigEndian>`. -/
def write_i16 (w : Int) : List Nat := write_u16 (u16_of_i16 w)

/-- `PgNumeric` from the source: the decimal value produced by decode and
consumed by encode.  `weight`/`digits` entries are `i16` (here `Int`),
`scale` is `u16` (here `Nat`). -/
inductive PgNumeric where
  | Positive (weight : Int) (scale : Nat) (digits : List Int) : PgNumeric
  | Negative (weight : Int) (scale : Nat) (digits : List Int) : PgNumeric
  | NaN : PgNumeric
deriving DecidableEq, Repr

/-- The `for _ in 0..ndigits { digits.push(try!(bytes.read_i16())) }` loop:
read exactly `n` big-endian `i16` digit groups, in wire order, returning
them with the unread remainder of the buffer. -/
def read_digits : Nat → List Nat → Option (List Int × List Nat)
  | 0, l => some ([], l)
  | n + 1, l =>
    match read_i16 l with
    | none => none
    | some (d, l1) =>
      match read_digits n l1 with
      | none => none
      | some (ds, l2) => some (d :: ds, l2)

/-- `FromSql<types::Numeric, Pg> for PgNumeric::from_sql`.  Field order and
the digits-before-sign-dispatch order follow the source exactly; every
short read is the `UnexpectedEof` error, surfaced as `Truncated`. -/
def PgNumeric.from_sql : Option (List Nat) → Except CodecError PgNumeric
  | none => .error .MissingValue
  | some bytes =>
    match read_u16 bytes with
    | none => .error .Truncated
    | some (ndigits, bytes) =>
      match read_i16 bytes with
      | none => .error .Truncated
      | some (weight, bytes) =>
        match read_u16 bytes with
        | none => .error .Truncated
        | some (sign, bytes) =>
          match read_u16 bytes with
          | none => .error .Truncated
          | some (scale, bytes) =>
            match read_digits ndigits bytes with
            | none => .error .Truncated
            | some (digits, _) =>
              match sign with
              | 0 => .ok (.Positive weight scale digits)
              | 16384 => .ok (.Negative weight scale digits)
              | 49152 => .ok .NaN
              | invalid => .error (.InvalidSign invalid)

/-- `ToSql<types::Numeric, Pg> for PgNumeric::to_sql`: the `IsNull` marker
together with the bytes written to the sink (an in-memory sink never fails,
so the I/O error arm does not arise). -/
def PgNumeric.to_sql (n : PgNumeric) : IsNull × List Nat :=
  let sign : Nat :=
    match n with
    | .Positive _ _ _ => 0
    | .Negative _ _ _ => 16384
    | .NaN => 49152
  let digits : List Int :=
    match n with
    | .Positive _ _ ds => ds
    | .Negative _ _ ds => ds
    | .NaN => []
  let weight : Int :=
    match n with
    | .Positive w _ _ => w
    | .Negative w _ _ => w
    | .NaN => 0
  let scale : Nat :=
    match n with
    | .Positive _ s _ => s
    | .Negative _ s _ => s
    | .NaN => 0
  (IsNull.No,
    write_u16 digits.length ++ write_i16 weight ++ write_u16 sign ++
      write_u16 scale ++ (digits.map write_i16).flatten)

/-- `FromSql<types::Float, DB> for f32::from_sql`, at the bit-pattern level:
`read_f32` consumes exactly 4 big-endian bytes and reinterprets them as the
IEEE-754 bit pattern. -/
def f32_from_sql : Option (List Nat) → Except CodecError Nat
  | none => .error .MissingValue
  | some (b0 :: b1 :: b2 :: b3 :: _) =>
    .ok (b0 * 2 ^ 24 + b1 * 2 ^ 16 + b2 * 2 ^ 8 + b3)
  | some _ => .error .Truncated

/-- `ToSql<types::Float, DB> for f32::to_sql`: the 4 big-endian bytes of the
bit pattern `v`, with the `IsNull::No` marker. -/
def f32_to_sql (v : Nat) : IsNull × List Nat :=
  (IsNull.No, [v / 2 ^ 24 % 256, v / 2 ^ 16 % 256, v / 2 ^ 8 % 256, v % 256])

/-- `FromSql<types::Double, DB> for f64::from_sql`, at the bit-pattern
level: `read_f64` consumes exactly 8 big-endian bytes. -/
def f64_from_sql : Option (List Nat) → Except CodecError Nat
  | none => .error .MissingValue
  | some (b0 :: b1 :: b2 :: b3 :: b4 :: b5 :: b6 :: b7 :: _) =>
    .ok (b0 * 2 ^ 56 + b1 * 2 ^ 48 + b2 * 2 ^ 40 + b3 * 2 ^ 32 +
      b4 * 2 ^ 24 + b5 * 2 ^ 16 + b6 * 2 ^ 8 + b7)
  | some _ => .error .Truncated

/-- `ToSql<types::Double, DB> for f64::to_sql`. -/
def f64_to_sql (v : Nat) : IsNull × List Nat :=
  (IsNull.No,
    [v / 2 ^ 56 % 256, v / 2 ^ 48 % 256, v / 2 ^ 40 % 256, v / 2 ^ 32 % 256,
      v / 2 ^ 24 % 256, v / 2 ^ 16 % 256, v / 2 ^ 8 % 256, v % 256])

/-- C5: encoding the `NaN` variant writes exactly the 8 bytes
`00 00 00 00 C0 00 00 00` (ndigits 0, weight 0, sign `0xC000`, scale 0, no
digit groups). -/
theorem encode_nan_bytes :
    PgNumeric.to_sql PgNumeric.NaN = (IsNull.No, [0, 0, 0, 0, 0xC0, 0, 0, 0]) := by
  decide

/-- C6: encoding `NaN` and decoding the produced bytes yields `NaN`. -/
theorem nan_roundtrip :
    PgNumeric.from_sql (some (PgNumeric.to_sql PgNumeric.NaN).2) =
      Except.ok PgNumeric.NaN := by
  rfl

/-- C7: every decoder of this core (float32, float64 and NUMERIC) fails with
`MissingValue` on an absent buffer. -/
theorem decode_none_missing_value :
    f32_from_sql none = Except.error CodecError.MissingValue ∧
    f64_from_sql none = Except.error CodecError.MissingValue ∧
    PgNumeric.from_sql none = Except.error CodecError.MissingValue := by
  exact ⟨rfl, rfl, rfl⟩

lemma read_u16_cons (b0 b1 : Nat) (r : List Nat) :
    read_u16 (b0 :: b1 :: r) = some (b0 * 256 + b1, r) := rfl

lemma read_i16_cons (b0 b1 : Nat) (r : List Nat) :
    read_i16 (b0 :: b1 :: r) = some (i16_of_u16 (b0 * 256 + b1), r) := rfl

/-- Stepping lemma: the NUMERIC decoder on a buffer holding a complete
8-byte header reduces to reading the digit groups and dispatching on the
sign value. -/
lemma from_sql_cons8 (b0 b1 b2 b3 b4 b5 b6 b7 : Nat) (body : List Nat) :
    PgNumeric.from_sql (some (b0 :: b1 :: b2 :: b3 :: b4 :: b5 :: b6 :: b7 :: body)) =
      match read_digits (b0 * 256 + b1) body with
      | none => Except.error CodecError.Truncated
      | some (digits, _) =>
        match b4 * 256 + b5 with
        | 0 => Except.ok (PgNumeric.Positive (i16_of_u16 (b2 * 256 + b3)) (b6 * 256 + b7) digits)
        | 16384 => Except.ok (PgNumeric.Negative (i16_of_u16 (b2 * 256 + b3)) (b6 * 256 + b7) digits)
        | 49152 => Except.ok PgNumeric.NaN
        | invalid => Except.error (CodecError.InvalidSign invalid) := rfl

/-- C2: for every 32-bit pattern and every 64-bit pattern, encoding and then
decoding returns the pattern bit-identically. -/
theorem float_roundtrip (v32 v64 : Nat) (h32 : v32 < 2 ^ 32) (h64 : v64 < 2 ^ 64) :
    f32_from_sql (some (f32_to_sql v32).2) = Except.ok v32 ∧
    f64_from_sql (some (f64_to_sql v64).2) = Except.ok v64 := by
  constructor
  · simp only [f32_to_sql, f32_from_sql, Except.ok.injEq]
    norm_num at h32 ⊢
    omega
  · simp only [f64_to_sql, f64_from_sql, Except.ok.injEq]
    norm_num at h64 ⊢
    omega

/-- Witness for `float_roundtrip` at the patterns of `1.0f32` and `1.0f64`. -/
theorem float_roundtrip_witness :
    f32_from_sql (some (f32_to_sql 0x3F800000).2) = Except.ok 0x3F800000 ∧
    f64_from_sql (some (f64_to_sql 0x3FF0000000000000).2) = Except.ok 0x3FF0000000000000 :=
  float_roundtrip 0x3F800000 0x3FF0000000000000 (by norm_num) (by norm_num)

/-- C8: every present buffer shorter than the minimum length (4 bytes for
float32, 8 bytes for float64, 8 bytes for the NUMERIC header) decodes to
`Truncated`. -/
theorem decode_short_truncated (buf4 buf8 : List Nat)
    (h4 : buf4.length < 4) (h8 : buf8.length < 8) :
    f32_from_sql (some buf4) = Except.error CodecError.Truncated ∧
    f64_from_sql (some buf8) = Except.error CodecError.Truncated ∧
    PgNumeric.from_sql (some buf8) = Except.error CodecError.Truncated := by
  refine ⟨?_, ?_, ?_⟩
  · rcases buf4 with _ | ⟨a, _ | ⟨b, _ | ⟨c, _ | ⟨d, rest⟩⟩⟩⟩
    · rfl
    · rfl
    · rfl
    · rfl
    · simp only [List.length_cons] at h4; omega
  · rcases buf8 with _ | ⟨a, _ | ⟨b, _ | ⟨c, _ | ⟨d, _ | ⟨e, _ | ⟨f, _ | ⟨g, _ | ⟨i, rest⟩⟩⟩⟩⟩⟩⟩⟩
    · rfl
    · rfl
    · rfl
    · rfl
    · rfl
    · rfl
    · rfl
    · rfl
    · simp only [List.length_cons] at h8; omega
  · rcases buf8 with _ | ⟨a, _ | ⟨b, _ | ⟨c, _ | ⟨d, _ | ⟨e, _ | ⟨f, _ | ⟨g, _ | ⟨i, rest⟩⟩⟩⟩⟩⟩⟩⟩
    · rfl
    · rfl
    · rfl
    · rfl
    · rfl
    · rfl
    · rfl
    · rfl
    · simp only [List.length_cons] at h8; omega

/-- Witness for `decode_short_truncated` on concrete 3- and 7-byte buffers. -/
theorem decode_short_truncated_witness :
    f32_from_sql (some [1, 2, 3]) = Except.error CodecError.Truncated ∧
    f64_from_sql (some [1, 2, 3, 4, 5, 6, 7]) = Except.error CodecError.Truncated ∧
    PgNumeric.from_sql (some [1, 2, 3, 4, 5, 6, 7]) = Except.error CodecError.Truncated :=
  decode_short_truncated [1, 2, 3] [1, 2, 3, 4, 5, 6, 7] (by decide) (by decide)

/-- Reading `n` digit groups from a buffer with fewer than `2*n` bytes hits
the end of input. -/
lemma read_digits_none : ∀ (n : Nat) (l : List Nat), l.length < 2 * n →
    read_digits n l = none := by
  intro n
  induction n with
  | zero => intro l h; exact absurd h (by omega)
  | succ n ih =>
    intro l h
    rcases l with _ | ⟨a, _ | ⟨b, rest⟩⟩
    · rfl
    · rfl
    · simp only [read_digits, read_i16_cons]
      rw [ih rest (by simp only [List.length_cons] at h; omega)]

/-- Reading `n` digit groups from a buffer of exactly `2*n` bytes consumes
it whole, and trailing bytes appended after it are left unread, with the
same digit groups produced. -/
lemma read_digits_exact : ∀ (n : Nat) (l extra : List Nat), l.length = 2 * n →
    ∃ ds : List Int, read_digits n l = some (ds, []) ∧
      read_digits n (l ++ extra) = some (ds, extra) := by
  intro n
  induction n with
  | zero =>
    intro l extra h
    have hl : l = [] := List.eq_nil_of_length_eq_zero (by omega)
    subst hl
    exact ⟨[], rfl, rfl⟩
  | succ n ih =>
    intro l extra h
    rcases l with _ | ⟨a, _ | ⟨b, rest⟩⟩
    · simp only [List.length_nil] at h; omega
    · simp only [List.length_cons, List.length_nil] at h; omega
    · obtain ⟨ds, h1, h2⟩ := ih rest extra
        (by simp only [List.length_cons] at h; omega)
    
      refine ⟨i16_of_u16 (a * 256 + b) :: ds, ?_, ?_⟩
      · simp only [read_digits, read_i16_cons, h1]
      · simp only [List.cons_append, read_digits, read_i16_cons, h2]

/-- C3: a buffer whose sign field is none of `0x0000`/`0x4000`/`0xC000` but
which holds fewer than `ndigits` complete 2-byte digit entries after the
header decodes to `Truncated`, not `InvalidSign`: all digit groups are read
before the sign is dispatched on. -/
theorem decode_invalid_sign_short_digits_truncated
    (n1 n0 w1 w0 s1 s0 c1 c0 : Nat) (rest : List Nat)
    (hs0 : s1 * 256 + s0 ≠ 0) (hs1 : s1 * 256 + s0 ≠ 16384)
    (hs2 : s1 * 256 + s0 ≠ 49152)
    (hlen : rest.length < 2 * (n1 * 256 + n0)) :
    PgNumeric.from_sql (some (n1 :: n0 :: w1 :: w0 :: s1 :: s0 :: c1 :: c0 :: rest)) =
      Except.error CodecError.Truncated := by
  rw [from_sql_cons8, read_digits_none _ _ hlen]

/-- Witness for `decode_invalid_sign_short_digits_truncated`: sign `0x1234`,
`ndigits = 1`, no digit bytes. -/
theorem decode_invalid_sign_short_digits_truncated_witness :
    PgNumeric.from_sql (some [0, 1, 0, 0, 18, 52, 0, 0]) =
      Except.error CodecError.Truncated :=
  decode_invalid_sign_short_digits_truncated 0 1 0 0 18 52 0 0 []
    (by decide) (by decide) (by decide) (by decide)

/-- Decode on a buffer with a complete header and all declared digit groups
reduces to the four-way dispatch on the sign value. -/
lemma from_sql_dispatch (n1 n0 w1 w0 s1 s0 c1 c0 : Nat)
    (rest tail : List Nat) (ds : List Int)
    (h : read_digits (n1 * 256 + n0) rest = some (ds, tail)) :
    PgNumeric.from_sql (some (n1 :: n0 :: w1 :: w0 :: s1 :: s0 :: c1 :: c0 :: rest)) =
      if s1 * 256 + s0 = 0 then
        Except.ok (PgNumeric.Positive (i16_of_u16 (w1 * 256 + w0)) (c1 * 256 + c0) ds)
      else if s1 * 256 + s0 = 16384 then
        Except.ok (PgNumeric.Negative (i16_of_u16 (w1 * 256 + w0)) (c1 * 256 + c0) ds)
      else if s1 * 256 + s0 = 49152 then Except.ok PgNumeric.NaN
      else Except.error (CodecError.InvalidSign (s1 * 256 + s0)) := by
  have hmain : PgNumeric.from_sql
      (some (n1 :: n0 :: w1 :: w0 :: s1 :: s0 :: c1 :: c0 :: rest)) =
      match s1 * 256 + s0 with
      | 0 => Except.ok (PgNumeric.Positive (i16_of_u16 (w1 * 256 + w0)) (c1 * 256 + c0) ds)
      | 16384 => Except.ok (PgNumeric.Negative (i16_of_u16 (w1 * 256 + w0)) (c1 * 256 + c0) ds)
      | 49152 => Except.ok PgNumeric.NaN
      | invalid => Except.error (CodecError.InvalidSign invalid) := by
    rw [from_sql_cons8, h]
  rw [hmain]
  split
  · rename_i heq
    rw [if_pos heq]
  · rename_i heq
    rw [if_neg (by omega), if_pos heq]
  · rename_i heq
    rw [if_neg (by omega), if_neg (by omega), if_pos heq]
  · rename_i inv h1 h2 h3
    rw [if_neg h1, if_neg h2, if_neg h3]

/-- C4: on a buffer with a complete header and all declared digit groups,
decode dispatches on the sign field: `0x0000` gives `Positive`, `0x4000`
gives `Negative`, `0xC000` gives `NaN` with the read digits discarded, and
any other value fails with `InvalidSign` carrying that raw value. -/
theorem decode_sign_dispatch (n1 n0 w1 w0 s1 s0 c1 c0 : Nat)
    (rest tail : List Nat) (ds : List Int)
    (h : read_digits (n1 * 256 + n0) rest = some (ds, tail)) :
    PgNumeric.from_sql (some (n1 :: n0 :: w1 :: w0 :: s1 :: s0 :: c1 :: c0 :: rest)) =
      if s1 * 256 + s0 = 0 then
        Except.ok (PgNumeric.Positive (i16_of_u16 (w1 * 256 + w0)) (c1 * 256 + c0) ds)
      else if s1 * 256 + s0 = 16384 then
        Except.ok (PgNumeric.Negative (i16_of_u16 (w1 * 256 + w0)) (c1 * 256 + c0) ds)
      else if s1 * 256 + s0 = 49152 then Except.ok PgNumeric.NaN
      else Except.error (CodecError.InvalidSign (s1 * 256 + s0)) :=
  from_sql_dispatch n1 n0 w1 w0 s1 s0 c1 c0 rest tail ds h

/-- Witness for `decode_sign_dispatch`: sign `0x1234` with one digit group
present fails with `InvalidSign 0x1234`. -/
theorem decode_sign_dispatch_witness :
    PgNumeric.from_sql (some [0, 1, 0, 0, 18, 52, 0, 2, 4, 210]) =
      Except.error (CodecError.InvalidSign 4660) := by
  have h := decode_sign_dispatch 0 1 0 0 18 52 0 2 [4, 210] [] [1234] (by decide)
  simpa using h

/-- C10: with a complete header and all `ndigits` digit groups present,
decode reads exactly `8 + 2*ndigits` bytes: any trailing bytes change
nothing, and the only possible failure is on the sign dispatch. -/
theorem decode_ignores_trailing (n1 n0 w1 w0 s1 s0 c1 c0 : Nat)
    (rest extra : List Nat) (h : rest.length = 2 * (n1 * 256 + n0)) :
    PgNumeric.from_sql
        (some (n1 :: n0 :: w1 :: w0 :: s1 :: s0 :: c1 :: c0 :: (rest ++ extra))) =
      PgNumeric.from_sql (some (n1 :: n0 :: w1 :: w0 :: s1 :: s0 :: c1 :: c0 :: rest)) ∧
    ∀ e, PgNumeric.from_sql
        (some (n1 :: n0 :: w1 :: w0 :: s1 :: s0 :: c1 :: c0 :: (rest ++ extra))) =
          Except.error e → ∃ raw, e = CodecError.InvalidSign raw := by
  obtain ⟨ds, h1, h2⟩ := read_digits_exact _ rest extra h
  have hmain : PgNumeric.from_sql
      (some (n1 :: n0 :: w1 :: w0 :: s1 :: s0 :: c1 :: c0 :: (rest ++ extra))) =
      match s1 * 256 + s0 with
      | 0 => Except.ok (PgNumeric.Positive (i16_of_u16 (w1 * 256 + w0)) (c1 * 256 + c0) ds)
      | 16384 => Except.ok (PgNumeric.Negative (i16_of_u16 (w1 * 256 + w0)) (c1 * 256 + c0) ds)
      | 49152 => Except.ok PgNumeric.NaN
      | invalid => Except.error (CodecError.InvalidSign invalid) := by
    rw [from_sql_cons8, h2]
  have hplain : PgNumeric.from_sql
      (some (n1 :: n0 :: w1 :: w0 :: s1 :: s0 :: c1 :: c0 :: rest)) =
      match s1 * 256 + s0 with
      | 0 => Except.ok (PgNumeric.Positive (i16_of_u16 (w1 * 256 + w0)) (c1 * 256 + c0) ds)
      | 16384 => Except.ok (PgNumeric.Negative (i16_of_u16 (w1 * 256 + w0)) (c1 * 256 + c0) ds)
      | 49152 => Except.ok PgNumeric.NaN
      | invalid => Except.error (CodecError.InvalidSign invalid) := by
    rw [from_sql_cons8, h1]
  refine ⟨hmain.trans hplain.symm, ?_⟩
  intro e he
  rw [hmain] at he
  split at he
  · simp at he
  · simp at he
  · simp at he
  · exact ⟨_, (Except.error.inj he).symm⟩

/-- Witness for `decode_ignores_trailing`: one digit group, three trailing
bytes. -/
theorem decode_ignores_trailing_witness :
    PgNumeric.from_sql (some [0, 1, 0, 0, 0, 0, 0, 2, 4, 210, 9, 9, 9]) =
      PgNumeric.from_sql (some [0, 1, 0, 0, 0, 0, 0, 2, 4, 210]) ∧
    ∀ e, PgNumeric.from_sql (some [0, 1, 0, 0, 0, 0, 0, 2, 4, 210, 9, 9, 9]) =
        Except.error e → ∃ raw, e = CodecError.InvalidSign raw :=
  decode_ignores_trailing 0 1 0 0 0 0 0 2 [4, 210] [9, 9, 9] (by decide)

/-- The digit-group section of an encoded NUMERIC value occupies exactly two
bytes per digit. -/
lemma digits_bytes_length (ds : List Int) :
    ((ds.map write_i16).flatten).length = 2 * ds.length := by
  induction ds with
  | nil => rfl
  | cons d ds ih =>
    simp only [List.map_cons, List.flatten_cons, List.length_append, ih,
      write_i16, write_u16, List.length_cons, List.length_nil]
    omega

/-- Byte-level shape of an encoded `Positive` value. -/
lemma to_sql_pos_shape (w : Int) (s : Nat) (ds : List Int) :
    (PgNumeric.to_sql (PgNumeric.Positive w s ds)).2 =
      ds.length / 256 % 256 :: ds.length % 256 :: u16_of_i16 w / 256 % 256 ::
        u16_of_i16 w % 256 :: 0 :: 0 :: s / 256 % 256 :: s % 256 ::
        (ds.map write_i16).flatten := by
  simp [PgNumeric.to_sql, write_u16, write_i16]

/-- Byte-level shape of an encoded `Negative` value (sign bytes `40 00`). -/
lemma to_sql_neg_shape (w : Int) (s : Nat) (ds : List Int) :
    (PgNumeric.to_sql (PgNumeric.Negative w s ds)).2 =
      ds.length / 256 % 256 :: ds.length % 256 :: u16_of_i16 w / 256 % 256 ::
        u16_of_i16 w % 256 :: 64 :: 0 :: s / 256 % 256 :: s % 256 ::
        (ds.map write_i16).flatten := by
  simp only [PgNumeric.to_sql, write_u16, write_i16]
  norm_num

/-- C9: NUMERIC encode writes the ndigits header field as the digit count
reduced modulo `2^16` (the `as u16` cast), while still writing two bytes per
actual digit group after the 8-byte header — so for more than 65535 groups
the written count understates what follows. -/
theorem encode_ndigits_mod (w : Int) (s : Nat) (ds : List Int) :
    ((PgNumeric.to_sql (PgNumeric.Positive w s ds)).2.take 2 =
        [ds.length % 65536 / 256, ds.length % 65536 % 256] ∧
      ((PgNumeric.to_sql (PgNumeric.Positive w s ds)).2.drop 8).length = 2 * ds.length) ∧
    ((PgNumeric.to_sql (PgNumeric.Negative w s ds)).2.take 2 =
        [ds.length % 65536 / 256, ds.length % 65536 % 256] ∧
      ((PgNumeric.to_sql (PgNumeric.Negative w s ds)).2.drop 8).length = 2 * ds.length) := by
  have htake : ∀ v r, List.take 2 (v / 256 % 256 :: v % 256 :: r) =
      [v % 65536 / 256, v % 65536 % 256] := by
    intro v r
    simp only [List.take_succ_cons, List.take_zero, List.cons.injEq, and_true]
    constructor <;> omega
  have hdrop : ∀ (a b c d e f g h : Nat) (r : List Nat),
      List.drop 8 (a :: b :: c :: d :: e :: f :: g :: h :: r) = r := by
    intro a b c d e f g h r
    rfl
  refine ⟨⟨?_, ?_⟩, ⟨?_, ?_⟩⟩
  · rw [to_sql_pos_shape]
    exact htake ds.length _
  · rw [to_sql_pos_shape, hdrop, digits_bytes_length]
  · rw [to_sql_neg_shape]
    exact htake ds.length _
  · rw [to_sql_neg_shape, hdrop, digits_bytes_length]

/-- The two's complement image of an `i16` fits in 16 bits. -/
lemma u16_of_i16_lt (w : Int) : u16_of_i16 w < 65536 := by
  unfold u16_of_i16
  omega

/-- Round trip through the 16-bit two's complement wire form is the
identity on the `i16` range. -/
lemma i16_roundtrip (w : Int) (h1 : -32768 ≤ w) (h2 : w < 32768) :
    i16_of_u16 (u16_of_i16 w) = w := by
  unfold i16_of_u16 u16_of_i16
  split <;> omega

/-- Decoding back the encoded digit section of a digit list in `i16` range
recovers the list exactly, consuming the whole section. -/
lemma read_digits_flatten (ds : List Int)
    (hds : ∀ d ∈ ds, -32768 ≤ d ∧ d < 32768) :
    read_digits ds.length ((ds.map write_i16).flatten) = some (ds, []) := by
  induction ds with
  | nil => rfl
  | cons d ds ih =>
    have hd := hds d (by simp)
    have hrec := ih (fun x hx => hds x (by simp [hx]))
    simp only [List.map_cons, List.flatten_cons, List.length_cons]
    rw [show write_i16 d ++ (ds.map write_i16).flatten =
        u16_of_i16 d / 256 % 256 :: u16_of_i16 d % 256 ::
          (ds.map write_i16).flatten from rfl]
    simp only [read_digits, read_i16_cons, hrec]
    have hv : u16_of_i16 d / 256 % 256 * 256 + u16_of_i16 d % 256 = u16_of_i16 d := by
      have := u16_of_i16_lt d
      omega
    rw [hv, i16_roundtrip d hd.1 hd.2]

/-- C1 (amended): encode-then-decode is the identity on `Positive` and
`Negative` values whose digit count is below `2^16` (with the fields in
their `i16`/`u16` ranges, as the source types enforce). -/
theorem pg_numeric_roundtrip (w : Int) (s : Nat) (ds : List Int)
    (hw1 : -32768 ≤ w) (hw2 : w < 32768) (hs : s < 65536)
    (hlen : ds.length < 65536)
    (hds : ∀ d ∈ ds, -32768 ≤ d ∧ d < 32768) :
    PgNumeric.from_sql (some (PgNumeric.to_sql (PgNumeric.Positive w s ds)).2) =
      Except.ok (PgNumeric.Positive w s ds) ∧
    PgNumeric.from_sql (some (PgNumeric.to_sql (PgNumeric.Negative w s ds)).2) =
      Except.ok (PgNumeric.Negative w s ds) := by
  have hdig := read_digits_flatten ds hds
  have hn : ds.length / 256 % 256 * 256 + ds.length % 256 = ds.length := by omega
  have hwv : u16_of_i16 w / 256 % 256 * 256 + u16_of_i16 w % 256 = u16_of_i16 w := by
    have := u16_of_i16_lt w
    omega
  have hsv : s / 256 % 256 * 256 + s % 256 = s := by omega
  constructor
  · rw [to_sql_pos_shape]
    rw [from_sql_dispatch _ _ _ _ _ _ _ _ _ _ _ (by rw [hn]; exact hdig)]
    rw [if_pos (by norm_num)]
    rw [hwv, hsv, i16_roundtrip w hw1 hw2]
  · rw [to_sql_neg_shape]
    rw [from_sql_dispatch _ _ _ _ _ _ _ _ _ _ _ (by rw [hn]; exact hdig)]
    rw [if_neg (by norm_num), if_pos (by norm_num)]
    rw [hwv, hsv, i16_roundtrip w hw1 hw2]

/-- Witness for `pg_numeric_roundtrip` at the spec's example
`Positive{weight 0, scale 2, digits [1234]}` and its negative twin. -/
theorem pg_numeric_roundtrip_witness :
    PgNumeric.from_sql (some (PgNumeric.to_sql (PgNumeric.Positive 0 2 [1234])).2) =
      Except.ok (PgNumeric.Positive 0 2 [1234]) ∧
    PgNumeric.from_sql (some (PgNumeric.to_sql (PgNumeric.Negative 0 2 [1234])).2) =
      Except.ok (PgNumeric.Negative 0 2 [1234]) :=
  pg_numeric_roundtrip 0 2 [1234] (by decide) (by decide) (by decide) (by decide)
    (by decide)

/-- C1 is false as stated for digit sequences of length `2^16`: the
`as u16` cast truncates the written digit count to 0, so decode returns an
empty digit list. -/
theorem pg_numeric_roundtrip_counterexample :
    PgNumeric.from_sql
        (some (PgNumeric.to_sql (PgNumeric.Positive 0 0 (List.replicate 65536 0))).2) ≠
      Except.ok (PgNumeric.Positive 0 0 (List.replicate 65536 0)) := by
  have hshape : (PgNumeric.to_sql (PgNumeric.Positive 0 0 (List.replicate 65536 0))).2 =
      0 :: 0 :: 0 :: 0 :: 0 :: 0 :: 0 :: 0 ::
        ((List.replicate 65536 (0 : Int)).map write_i16).flatten := by
    rw [to_sql_pos_shape]
    norm_num [List.length_replicate, u16_of_i16]
  have hdec : PgNumeric.from_sql (some (0 :: 0 :: 0 :: 0 :: 0 :: 0 :: 0 :: 0 ::
      ((List.replicate 65536 (0 : Int)).map write_i16).flatten)) =
      Except.ok (PgNumeric.Positive 0 0 []) := rfl
  rw [hshape, hdec]
  simp only [ne_eq, Except.ok.injEq, PgNumeric.Positive.injEq, true_and]
  intro h
  have hlen := congrArg List.length h
  simp only [List.length_nil, List.length_replicate] at hlen
  omega
